import Mathlib

set_option maxRecDepth 100000

/-!
Shallow embedding of the document-normalization and metric-extraction core of
`src/app2.py` (an ATS resume analyzer built on Streamlit and a hosted
multimodal model).

The embedded pieces, with the Python lines they are translated from:

* `analyze_resume_structure` (lines 218-239): scans the model's response text
  for the first `digits%` pattern and stores its integer value as
  `match_percentage`, defaulting to 0.
* `input_docx_setup` (lines 104-169): extracts paragraph text from a DOCX
  document, word-wraps it at a 100-character column budget, and renders the
  wrapped lines onto a white canvas of computed height; it also stores the
  extracted text in the Streamlit session state.
* `input_pdf_setup` (lines 81-102): converts PDF bytes to the first page image
  via the external `pdf2image` library (modelled as a parameter) and wraps any
  failure in a `ValueError` with a component-specific message.
* `process_uploaded_file` (lines 171-184): dispatches on the uploaded file's
  name suffix and re-raises component errors unchanged.

External libraries (`pdf2image`, `python-docx` parsing, PIL's JPEG encoder and
base64) are modelled as parameters or as symbolic payloads: the payload keeps
the exact image description (canvas size, background, drawn text runs) plus
the JPEG quality, standing for the encoded bytes the Python code would emit.
Python strings are modelled as `List Char` (with `String` wrappers where the
source works on whole response texts), byte streams as `List Nat`.
-/

/-! ## MetricExtractor: `analyze_resume_structure`, lines 218-239 -/

/-- Python `int()` on a string of decimal digits: base-10 value of the digit
characters, most significant first. -/
def digitsToNat (ds : List Char) : Nat :=
  ds.foldl (fun n c => 10 * n + (c.toNat - 48)) 0

/-- The first (leftmost) match of the Python regex `(\d+)%` in the character
list: at each start position, take the maximal run of decimal digits and keep
it when it is nonempty and immediately followed by a literal percent sign.
Greedy backtracking inside a digit run can never produce a shorter match,
because every proper prefix of the run is followed by a digit, not by `%`, so
taking the maximal run is exactly the regex semantics. -/
def findPctNum : List Char → Option (List Char)
  | [] => none
  | c :: cs =>
    if c.isDigit ∧ ((c :: cs).dropWhile Char.isDigit).head? = some '%' then
      some ((c :: cs).takeWhile Char.isDigit)
    else findPctNum cs

/-- The structured result of `analyze_resume_structure` (lines 222-228): in the
source only `match_percentage` is ever computed; the list fields stay empty. -/
structure Analysis where
  match_percentage : Nat
  strengths : List String
  weaknesses : List String
  missing_skills : List String
  suggestions : List String
deriving DecidableEq

/-- Lines 218-239: guard on `'%' in response_text`, then
`re.findall(r'(\d+)%', response_text)` and `int(percentages[0])`; every branch
without a match leaves `match_percentage` at 0, and the remaining fields are
never filled in. -/
def analyze_resume_structure (response_text : String) : Analysis :=
  { match_percentage :=
      if response_text.data.contains '%' then
        match findPctNum response_text.data with
        | some ds => digitsToNat ds
        | none => 0
      else 0,
    strengths := [], weaknesses := [], missing_skills := [], suggestions := [] }

/-- Declarative reading of the spec's extraction sentence: the text decomposes
as `pre ++ ds ++ '%' :: post` where `ds` is a nonempty run of decimal digits
immediately followed by the percent sign. -/
def PctMatch (s pre ds post : List Char) : Prop :=
  s = pre ++ ds ++ '%' :: post ∧ ds ≠ [] ∧ ∀ c ∈ ds, c.isDigit = true

/-! ### Lemmas about the leftmost percent match -/

theorem digit_run_unique (ds ds' post post' : List Char)
    (he : ds ++ '%' :: post = ds' ++ '%' :: post')
    (hd : ∀ c ∈ ds, c.isDigit = true) (hd' : ∀ c ∈ ds', c.isDigit = true) :
    ds = ds' := by
  induction ds generalizing ds' with
  | nil =>
    cases ds' with
    | nil => rfl
    | cons c t =>
      exfalso
      have hc : c = '%' := by simpa using congrArg List.head? he.symm
      have : c.isDigit = true := hd' c (by simp)
      rw [hc] at this
      simp [Char.isDigit] at this
  | cons c t ih =>
    cases ds' with
    | nil =>
      exfalso
      have hc : c = '%' := by simpa using congrArg List.head? he
      have : c.isDigit = true := hd c (by simp)
      rw [hc] at this
      simp [Char.isDigit] at this
    | cons c' t' =>
      simp only [List.cons_append, List.cons.injEq] at he
      have := ih t' (by simpa using he.2)
        (fun x hx => hd x (by simp [hx]))
        (fun x hx => hd' x (by simp [hx]))
      simp [he.1, this]

theorem pctMatch_cons_cases {c : Char} {cs pre ds post : List Char}
    (h : PctMatch (c :: cs) pre ds post) :
    pre = [] ∨ ∃ pre', pre = c :: pre' ∧ PctMatch cs pre' ds post := by
  obtain ⟨he, hne, hd⟩ := h
  cases pre with
  | nil => exact Or.inl rfl
  | cons p pre' =>
    right
    refine ⟨pre', ?_, ?_, hne, hd⟩
    · simp only [List.cons_append] at he
      simp [(List.cons.injEq _ _ _ _ ▸ he).1]
    · simp only [List.cons_append, List.cons.injEq] at he
      exact he.2

theorem pctMatch_lift {c : Char} {cs pre ds post : List Char}
    (h : PctMatch cs pre ds post) : PctMatch (c :: cs) (c :: pre) ds post := by
  obtain ⟨he, hne, hd⟩ := h
  exact ⟨by simp [he], hne, hd⟩

theorem dropWhile_digits_pct (ds post : List Char)
    (hd : ∀ c ∈ ds, c.isDigit = true) :
    (ds ++ '%' :: post).dropWhile Char.isDigit = '%' :: post := by
  induction ds with
  | nil =>
    simp [List.dropWhile, Char.isDigit]
  | cons c t ih =>
    have hc : c.isDigit = true := hd c (by simp)
    simp only [List.cons_append, List.dropWhile_cons, hc, if_true]
    exact ih (fun x hx => hd x (by simp [hx]))

theorem takeWhile_digits_pct (ds post : List Char)
    (hd : ∀ c ∈ ds, c.isDigit = true) :
    (ds ++ '%' :: post).takeWhile Char.isDigit = ds := by
  induction ds with
  | nil =>
    simp [List.takeWhile, Char.isDigit]
  | cons c t ih =>
    have hc : c.isDigit = true := hd c (by simp)
    simp only [List.cons_append, List.takeWhile_cons, hc, if_true]
    exact congrArg (c :: ·) (ih (fun x hx => hd x (by simp [hx])))

theorem no_head_match {c : Char} {cs ds post : List Char}
    (hcond : ¬(c.isDigit = true ∧ ((c :: cs).dropWhile Char.isDigit).head? = some '%')) :
    ¬ PctMatch (c :: cs) [] ds post := by
  rintro ⟨he, hne, hd⟩
  apply hcond
  simp only [List.nil_append] at he
  constructor
  · cases ds with
    | nil => exact absurd rfl hne
    | cons d t =>
      have hc : c = d := by simpa using congrArg List.head? he
      exact hc ▸ hd d (by simp)
  · rw [he, dropWhile_digits_pct ds post hd]
    simp

theorem findPctNum_none_no_match :
    ∀ s : List Char, findPctNum s = none →
      ∀ pre ds post, ¬ PctMatch s pre ds post := by
  intro s
  induction s with
  | nil =>
    rintro - pre ds post ⟨he, hne, -⟩
    cases ds with
    | nil => exact hne rfl
    | cons d t => simp at he
  | cons c cs ih =>
    intro hn pre ds post hm
    rw [findPctNum] at hn
    by_cases hcond : c.isDigit = true ∧ ((c :: cs).dropWhile Char.isDigit).head? = some '%'
    · rw [if_pos hcond] at hn
      exact Option.noConfusion hn
    · rw [if_neg hcond] at hn
      rcases pctMatch_cons_cases hm with h0 | ⟨pre', rfl, hm'⟩
      · exact no_head_match hcond (h0 ▸ hm)
      · exact ih hn pre' ds post hm'

theorem findPctNum_some_match :
    ∀ s ds : List Char, findPctNum s = some ds →
      ∃ pre post, PctMatch s pre ds post ∧
        ∀ pre' ds' post', PctMatch s pre' ds' post' → pre.length ≤ pre'.length := by
  intro s
  induction s with
  | nil => intro ds h; rw [findPctNum] at h; exact Option.noConfusion h
  | cons c cs ih =>
    intro ds h
    rw [findPctNum] at h
    by_cases hcond : c.isDigit = true ∧ ((c :: cs).dropWhile Char.isDigit).head? = some '%'
    · rw [if_pos hcond] at h
      obtain ⟨hc, hhead⟩ := hcond
      have hds : (c :: cs).takeWhile Char.isDigit = ds := by
        simpa using h
      cases hr : (c :: cs).dropWhile Char.isDigit with
      | nil => rw [hr] at hhead; exact Option.noConfusion hhead
      | cons r rt =>
        have hrp : r = '%' := by rw [hr] at hhead; simpa using hhead
        have hsplit : ds ++ '%' :: rt = c :: cs := by
          rw [← hds, ← hrp, ← hr]
          exact List.takeWhile_append_dropWhile Char.isDigit (c :: cs)
        refine ⟨[], rt, ⟨?_, ?_, ?_⟩, fun pre' ds' post' _ => Nat.zero_le _⟩
        · rw [List.nil_append]
          exact hsplit.symm
        · rw [← hds]
          simp [List.takeWhile_cons, hc]
        · intro x hx
          rw [← hds] at hx
          exact List.mem_takeWhile_imp hx
    · rw [if_neg hcond] at h
      obtain ⟨pre, post, hm, hmin⟩ := ih ds h
      refine ⟨c :: pre, post, pctMatch_lift hm, ?_⟩
      intro pre' ds' post' hm'
      rcases pctMatch_cons_cases hm' with h0 | ⟨pre'', rfl, hm''⟩
      · exact absurd (h0 ▸ hm') (no_head_match hcond)
      · simpa using Nat.succ_le_succ (hmin pre'' ds' post' hm'')

theorem pctMatch_mem_pct {s pre ds post : List Char} (h : PctMatch s pre ds post) :
    s.contains '%' = true := by
  obtain ⟨he, -, -⟩ := h
  rw [he, List.contains_iff_exists_mem_beq]
  exact ⟨'%', by simp, by simp⟩

/-- Claim C1: for every response text, `analyze_resume_structure` returns the
base-10 parse of the digits of the leftmost `digits%` match and 0 when no such
match exists (in particular on the empty text); no upper-bound clamping is
applied, so "150%" yields 150.  The concrete examples of the spec are included:
"MATCH SCORE: 82%" yields 82, "no numbers here" yields 0, "90% then later 40%"
yields 90 (first match wins), "" yields 0. -/
theorem C1_metric_extractor_first_percent :
    (∀ s : List Char, (¬ ∃ pre ds post, PctMatch s pre ds post) →
        (analyze_resume_structure (String.mk s)).match_percentage = 0) ∧
    (∀ s pre ds post, PctMatch s pre ds post →
        (∀ pre' ds' post', PctMatch s pre' ds' post' → pre.length ≤ pre'.length) →
        (analyze_resume_structure (String.mk s)).match_percentage = digitsToNat ds) ∧
    (analyze_resume_structure "MATCH SCORE: 82%").match_percentage = 82 ∧
    (analyze_resume_structure "no numbers here").match_percentage = 0 ∧
    (analyze_resume_structure "90% then later 40%").match_percentage = 90 ∧
    (analyze_resume_structure "").match_percentage = 0 ∧
    (analyze_resume_structure "150%").match_percentage = 150 := by
  refine ⟨?_, ?_, by decide, by decide, by decide, by decide, by decide⟩
  · intro s hno
    cases hf : findPctNum s with
    | some ds =>
      obtain ⟨pre, post, hm, -⟩ := findPctNum_some_match s ds hf
      exact absurd ⟨pre, ds, post, hm⟩ hno
    | none =>
      simp only [analyze_resume_structure]
      cases hc : s.contains '%' with
      | true => simp [hf]
      | false => simp
  · intro s pre ds post hm hmin
    cases hf : findPctNum s with
    | none => exact absurd hm (findPctNum_none_no_match s hf pre ds post)
    | some ds0 =>
      obtain ⟨pre0, post0, hm0, hmin0⟩ := findPctNum_some_match s ds0 hf
      have hlen : pre.length = pre0.length :=
        Nat.le_antisymm (hmin pre0 ds0 post0 hm0) (hmin0 pre ds post hm)
      obtain ⟨he, hne, hd⟩ := hm
      obtain ⟨he0, hne0, hd0⟩ := hm0
      have h1 : pre ++ (ds ++ '%' :: post) = pre0 ++ (ds0 ++ '%' :: post0) := by
        rw [← List.append_assoc, ← List.append_assoc, ← he, ← he0]
      have hpair := List.append_inj h1 hlen
      have hds : ds0 = ds := digit_run_unique ds0 ds post0 post hpair.2.symm hd0 hd
      simp only [analyze_resume_structure]
      rw [pctMatch_mem_pct ⟨he, hne, hd⟩]
      simp [hf, hds]

/-! ## TextPageRenderer: `input_docx_setup`, lines 104-169 -/

/-- Python `text.split('\n')`: the segments between newline characters; the
empty string splits into one empty segment. -/
def splitOnNl : List Char → List (List Char)
  | [] => [[]]
  | c :: cs =>
    match splitOnNl cs with
    | [] => [[]]
    | p :: ps => if c = '\n' then [] :: p :: ps else (c :: p) :: ps

/-- Worker for `paragraph.split()`: `acc` holds the characters of the word in
progress, reversed. -/
def splitWsAux : List Char → List Char → List (List Char)
  | [], acc => if acc = [] then [] else [acc.reverse]
  | c :: cs, acc =>
    if c.isWhitespace then
      if acc = [] then splitWsAux cs [] else acc.reverse :: splitWsAux cs []
    else splitWsAux cs (c :: acc)

/-- Python `paragraph.split()` with no argument: maximal runs of
non-whitespace characters, with no empty words. -/
def splitWs (s : List Char) : List (List Char) := splitWsAux s []

/-- Python `str.strip()`: drop whitespace from both ends. -/
def pyStrip (cs : List Char) : List Char :=
  ((cs.dropWhile Char.isWhitespace).reverse.dropWhile Char.isWhitespace).reverse

/-- Line 118: the fixed column budget of the wrap. -/
def max_chars : Nat := 100

/-- Lines 123-134: the greedy word-packing loop over one paragraph's words.
`current_line` accumulates `word + " "` while the budget
`len(current_line) + len(word) + 1 <= max_chars` holds; otherwise the stripped
current line is emitted (when nonempty) and the word starts a fresh line; a
trailing nonempty line is emitted after the loop. -/
def wrapWords : List (List Char) → List Char → List (List Char)
  | [], current_line => if current_line ≠ [] then [pyStrip current_line] else []
  | word :: ws, current_line =>
    if current_line.length + word.length + 1 ≤ max_chars then
      wrapWords ws (current_line ++ word ++ [' '])
    else
      if current_line ≠ [] then
        pyStrip current_line :: wrapWords ws (word ++ [' '])
      else
        wrapWords ws (word ++ [' '])

/-- One paragraph's wrapped lines (without the blank separator). -/
def wrapParagraph (paragraph : List Char) : List (List Char) :=
  wrapWords (splitWs paragraph) []

/-- Lines 121-135: the full line list for the text: each paragraph's wrapped
lines followed by one appended blank entry (`lines.append("")`), the last
paragraph included. -/
def docxWrapLines (text : List Char) : List (List Char) :=
  (splitOnNl text).flatMap (fun paragraph => wrapParagraph paragraph ++ [[]])

/-- Line 138: fixed line height in pixels. -/
def line_height : Nat := 20

/-- Line 139: fixed canvas width in pixels. -/
def img_width : Nat := 900

/-- Line 140: `img_height = max(400, len(lines) * line_height + 40)`. -/
def imgHeight (lines : List (List Char)) : Nat :=
  max 400 (lines.length * line_height + 40)

/-- Lines 152-156: the text runs actually drawn, with their y positions:
`y_position` starts at 20 and advances by `line_height` for every entry, but
only entries whose `strip()` is nonempty are drawn. -/
def drawnTexts (lines : List (List Char)) : List (List Char × Nat) :=
  lines.enum.filterMap fun p =>
    if pyStrip p.2 ≠ [] then some (p.2, 20 + p.1 * line_height) else none

/-- The symbolic rendered canvas of lines 143-156: a white RGB canvas of the
computed size carrying the drawn text runs. -/
structure RenderedPage where
  width : Nat
  height : Nat
  background : Nat × Nat × Nat
  texts : List (List Char × Nat)
deriving DecidableEq

/-- Claim C2 counterexample: on a single paragraph of 250 letters `a` (one
250-character word) the wrap emits one line of 250 characters, not three lines
of 100, 100 and 50. -/
theorem C2_counterexample_single_word :
    (wrapParagraph (List.replicate 250 'a')).map List.length = [250] ∧
    (wrapParagraph (List.replicate 250 'a')).length ≠ 3 := by
  constructor
  · decide
  · decide

/-- Claim C2 as amended: the greedy wrap packs whole words and never breaks
inside a word, so the 250-character single-word paragraph produces exactly one
wrapped line holding all 250 characters, followed by the one blank separator
entry. -/
theorem C2_amended_one_unbroken_line :
    wrapParagraph (List.replicate 250 'a') = [List.replicate 250 'a'] ∧
    docxWrapLines (List.replicate 250 'a') = [List.replicate 250 'a', []] := by
  constructor
  · decide
  · decide

/-! ### Lemmas about the wrap -/

theorem length_dropWhile_le_here (p : Char → Bool) (l : List Char) :
    (l.dropWhile p).length ≤ l.length :=
  (List.dropWhile_suffix p).length_le

theorem pyStrip_length_le (cs : List Char) : (pyStrip cs).length ≤ cs.length := by
  unfold pyStrip
  rw [List.length_reverse]
  calc ((cs.dropWhile Char.isWhitespace).reverse.dropWhile Char.isWhitespace).length
      ≤ (cs.dropWhile Char.isWhitespace).reverse.length :=
        length_dropWhile_le_here _ _
    _ = (cs.dropWhile Char.isWhitespace).length := List.length_reverse _
    _ ≤ cs.length := length_dropWhile_le_here _ _

theorem pyStrip_concat_space_length (xs : List Char) :
    (pyStrip (xs ++ [' '])).length ≤ xs.length := by
  unfold pyStrip
  rw [List.dropWhile_append]
  by_cases h : (xs.dropWhile Char.isWhitespace).isEmpty
  · rw [if_pos h]
    simp [List.dropWhile]
  · rw [if_neg h]
    rw [List.length_reverse, List.reverse_append]
    have : (([' '].reverse ++ (xs.dropWhile Char.isWhitespace).reverse).dropWhile
        Char.isWhitespace) = ((xs.dropWhile Char.isWhitespace).reverse.dropWhile
        Char.isWhitespace) := by
      simp [List.dropWhile]
    rw [this]
    calc ((xs.dropWhile Char.isWhitespace).reverse.dropWhile Char.isWhitespace).length
        ≤ (xs.dropWhile Char.isWhitespace).reverse.length := length_dropWhile_le_here _ _
      _ = (xs.dropWhile Char.isWhitespace).length := List.length_reverse _
      _ ≤ xs.length := length_dropWhile_le_here _ _

theorem wrapWords_length_le (ws : List (List Char)) :
    ∀ cur : List Char, (∀ w ∈ ws, w.length ≤ max_chars) →
      (pyStrip cur).length ≤ max_chars →
      ∀ l ∈ wrapWords ws cur, l.length ≤ max_chars := by
  induction ws with
  | nil =>
    intro cur _ hcur l hl
    rw [wrapWords] at hl
    by_cases h : cur ≠ []
    · rw [if_pos h] at hl
      simp only [List.mem_singleton] at hl
      exact hl ▸ hcur
    · rw [if_neg h] at hl
      simp at hl
  | cons w ws ih =>
    intro cur hws hcur l hl
    have hw : w.length ≤ max_chars := hws w (by simp)
    have hws' : ∀ x ∈ ws, x.length ≤ max_chars := fun x hx => hws x (by simp [hx])
    rw [wrapWords] at hl
    by_cases hfit : cur.length + w.length + 1 ≤ max_chars
    · rw [if_pos hfit] at hl
      refine ih (cur ++ w ++ [' ']) hws' ?_ l hl
      calc (pyStrip (cur ++ w ++ [' '])).length
          ≤ (cur ++ w).length := by
            rw [List.append_assoc] at *
            exact List.append_assoc cur w [' '] ▸ pyStrip_concat_space_length (cur ++ w)
        _ = cur.length + w.length := List.length_append _ _
        _ ≤ max_chars := by omega
    · rw [if_neg hfit] at hl
      have hnew : (pyStrip (w ++ [' '])).length ≤ max_chars :=
        le_trans (pyStrip_concat_space_length w) hw
      by_cases hcne : cur ≠ []
      · rw [if_pos hcne] at hl
        rcases List.mem_cons.mp hl with rfl | hl'
        · exact hcur
        · exact ih (w ++ [' ']) hws' hnew l hl'
      · rw [if_neg hcne] at hl
        exact ih (w ++ [' ']) hws' hnew l hl

/-- Claim C3 counterexample: a single 101-character word is emitted as a line
of 101 characters, over the 100-character budget, so not every produced line
respects the budget. -/
theorem C3_counterexample_long_word :
    (docxWrapLines (List.replicate 101 'a')).map List.length = [101, 0] ∧
    ¬ (∀ l ∈ docxWrapLines (List.replicate 101 'a'), l.length ≤ 100) := by
  constructor
  · decide
  · decide

/-- Claim C3 as amended: the budget bound holds for every produced line as
long as every word of the input fits the budget on its own; a word longer than
`max_chars` is emitted unbroken as an over-long line (the greedy wrap never
splits inside a word). -/
theorem C3_amended_lines_within_budget (text : List Char)
    (hwords : ∀ p ∈ splitOnNl text, ∀ w ∈ splitWs p, w.length ≤ max_chars) :
    ∀ l ∈ docxWrapLines text, l.length ≤ max_chars := by
  intro l hl
  rw [docxWrapLines, List.mem_flatMap] at hl
  obtain ⟨p, hp, hlp⟩ := hl
  rcases List.mem_append.mp hlp with hlw | hblank
  · exact wrapWords_length_le (splitWs p) [] (hwords p hp) (by simp [pyStrip]) l hlw
  · simp only [List.mem_singleton] at hblank
    simp [hblank, max_chars]

/-- Witness for C3 as amended, at the two-word text "hello world": its words
fit the budget and the produced first line does too. -/
theorem C3_amended_witness :
    ("hello world".data).length ≤ max_chars :=
  C3_amended_lines_within_budget "hello world".data (by decide)
    "hello world".data (by decide)

theorem splitWsAux_words (cs : List Char) :
    ∀ acc : List Char, (∀ c ∈ acc, c.isWhitespace = false) →
      ∀ w ∈ splitWsAux cs acc, w ≠ [] ∧ ∀ c ∈ w, c.isWhitespace = false := by
  induction cs with
  | nil =>
    intro acc hacc w hw
    rw [splitWsAux] at hw
    by_cases h : acc = []
    · rw [if_pos h] at hw
      simp at hw
    · rw [if_neg h] at hw
      simp only [List.mem_singleton] at hw
      subst hw
      exact ⟨by simpa using h, fun c hc => hacc c (List.mem_reverse.mp hc)⟩
  | cons c cs ih =>
    intro acc hacc w hw
    rw [splitWsAux] at hw
    by_cases hws : c.isWhitespace
    · rw [if_pos hws] at hw
      by_cases h : acc = []
      · rw [if_pos h] at hw
        exact ih [] (by simp) w hw
      · rw [if_neg h] at hw
        rcases List.mem_cons.mp hw with rfl | hw'
        · exact ⟨by simpa using h, fun x hx => hacc x (List.mem_reverse.mp hx)⟩
        · exact ih [] (by simp) w hw'
    · rw [if_neg hws] at hw
      refine ih (c :: acc) ?_ w hw
      intro x hx
      rcases List.mem_cons.mp hx with rfl | hx'
      · exact Bool.not_eq_true _ ▸ by simpa using hws
      · exact hacc x hx'

theorem mem_dropWhile_of_not (p : Char → Bool) (l : List Char) (c : Char)
    (hc : c ∈ l) (hp : p c = false) : c ∈ l.dropWhile p := by
  have hsplit : l.takeWhile p ++ l.dropWhile p = l := List.takeWhile_append_dropWhile p l
  rcases List.mem_append.mp (hsplit ▸ hc) with ht | hd
  · exact absurd (List.mem_takeWhile_imp ht) (by simp [hp])
  · exact hd

theorem pyStrip_ne_nil_of_mem {xs : List Char} {c : Char}
    (hc : c ∈ xs) (hns : c.isWhitespace = false) : pyStrip xs ≠ [] := by
  have h1 : c ∈ xs.dropWhile Char.isWhitespace := mem_dropWhile_of_not _ xs c hc hns
  have h2 : c ∈ (xs.dropWhile Char.isWhitespace).reverse := List.mem_reverse.mpr h1
  have h3 : c ∈ (xs.dropWhile Char.isWhitespace).reverse.dropWhile Char.isWhitespace :=
    mem_dropWhile_of_not _ _ c h2 hns
  exact List.ne_nil_of_mem (List.mem_reverse.mpr h3)

theorem wrapWords_ne_nil (ws : List (List Char)) :
    ∀ cur : List Char, (∀ w ∈ ws, w ≠ [] ∧ ∀ c ∈ w, c.isWhitespace = false) →
      (cur = [] ∨ pyStrip cur ≠ []) →
      ∀ l ∈ wrapWords ws cur, l ≠ [] := by
  induction ws with
  | nil =>
    intro cur _ hcur l hl
    rw [wrapWords] at hl
    by_cases h : cur ≠ []
    · rw [if_pos h] at hl
      simp only [List.mem_singleton] at hl
      subst hl
      rcases hcur with h0 | hs
      · exact absurd h0 h
      · exact hs
    · rw [if_neg h] at hl
      simp at hl
  | cons w ws ih =>
    intro cur hws hcur l hl
    obtain ⟨hwne, hwchars⟩ := hws w (by simp)
    have hws' : ∀ x ∈ ws, x ≠ [] ∧ ∀ c ∈ x, c.isWhitespace = false :=
      fun x hx => hws x (by simp [hx])
    obtain ⟨c0, hc0⟩ : ∃ c0, c0 ∈ w := by
      cases w with
      | nil => exact absurd rfl hwne
      | cons a t => exact ⟨a, by simp⟩
    have hc0ns : c0.isWhitespace = false := hwchars c0 hc0
    rw [wrapWords] at hl
    by_cases hfit : cur.length + w.length + 1 ≤ max_chars
    · rw [if_pos hfit] at hl
      refine ih (cur ++ w ++ [' ']) hws' (Or.inr ?_) l hl
      exact pyStrip_ne_nil_of_mem (by simp [hc0]) hc0ns
    · rw [if_neg hfit] at hl
      have hnew : pyStrip (w ++ [' ']) ≠ [] :=
        pyStrip_ne_nil_of_mem (by simp [hc0]) hc0ns
      by_cases hcne : cur ≠ []
      · rw [if_pos hcne] at hl
        rcases List.mem_cons.mp hl with rfl | hl'
        · rcases hcur with h0 | hs
          · exact absurd h0 hcne
          · exact hs
        · exact ih (w ++ [' ']) hws' (Or.inr hnew) l hl'
      · rw [if_neg hcne] at hl
        exact ih (w ++ [' ']) hws' (Or.inr hnew) l hl

theorem wrapParagraph_ne_nil (p : List Char) : ∀ l ∈ wrapParagraph p, l ≠ [] := by
  intro l hl
  exact wrapWords_ne_nil (splitWs p) []
    (fun w hw => splitWsAux_words p [] (by simp) w hw) (Or.inl rfl) l hl

theorem splitOnNl_ne_nil (cs : List Char) : splitOnNl cs ≠ [] := by
  cases cs with
  | nil => simp [splitOnNl]
  | cons c cs =>
    rw [splitOnNl]
    cases h : splitOnNl cs with
    | nil => simp
    | cons p ps =>
      by_cases hc : c = '\n' <;> simp [hc]

theorem count_nil_flatMap (ps : List (List Char)) :
    ((ps.flatMap fun p => wrapParagraph p ++ [[]]).count ([] : List Char)) = ps.length := by
  induction ps with
  | nil => simp
  | cons p ps ih =>
    rw [List.flatMap_cons, List.count_append, List.count_append, ih]
    have hz : (wrapParagraph p).count ([] : List Char) = 0 :=
      List.count_eq_zero.mpr (fun hmem => wrapParagraph_ne_nil p [] hmem rfl)
    simp [hz]
    omega

theorem getLast_flatMap (ps : List (List Char)) (hne : ps ≠ []) :
    ((ps.flatMap fun p => wrapParagraph p ++ [[]]).getLast?) = some [] := by
  induction ps with
  | nil => exact absurd rfl hne
  | cons p ps ih =>
    rw [List.flatMap_cons]
    cases hps : ps with
    | nil =>
      simp only [hps, List.flatMap_nil, List.append_nil]
      exact List.getLast?_concat _
    | cons q qs =>
      rw [List.getLast?_append_of_ne_nil]
      · exact hps ▸ ih (by simp [hps])
      · rw [← hps]
        have h1 : (wrapParagraph q ++ [[]]).length ≠ 0 := by simp
        intro hcontra
        rw [hps] at hcontra
        rw [List.flatMap_cons] at hcontra
        have := congrArg List.length hcontra
        simp at this

/-- Claim C10: the wrapping step appends one blank entry after every paragraph
of the split text, including the last (so the line list ends in a blank entry
and holds exactly one blank per paragraph of `text.split('\n')`; note that the
empty text splits to one empty paragraph); every entry, blank or not,
contributes one `line_height` to the computed canvas height, and blank entries
are never drawn. -/
theorem C10_blank_line_per_paragraph :
    (∀ text : List Char,
        (docxWrapLines text).count ([] : List Char) = (splitOnNl text).length) ∧
    (∀ text : List Char, (docxWrapLines text).getLast? = some []) ∧
    (∀ text : List Char, imgHeight (docxWrapLines text) =
        max 400 ((docxWrapLines text).length * line_height + 40)) ∧
    (∀ lines : List (List Char), ∀ l y, (l, y) ∈ drawnTexts lines → pyStrip l ≠ []) := by
  refine ⟨?_, ?_, fun _ => rfl, ?_⟩
  · intro text
    exact count_nil_flatMap (splitOnNl text)
  · intro text
    exact getLast_flatMap (splitOnNl text) (splitOnNl_ne_nil text)
  · intro lines l y hmem
    rw [drawnTexts, List.mem_filterMap] at hmem
    obtain ⟨p, -, hp⟩ := hmem
    by_cases h : pyStrip p.2 ≠ []
    · rw [if_pos h] at hp
      obtain ⟨hl, -⟩ := Prod.mk.injEq .. ▸ Option.some.injEq .. ▸ hp
      exact hl ▸ h
    · rw [if_neg h] at hp
      exact Option.noConfusion hp

/-! ## DocumentNormalizer: `input_pdf_setup`, `input_docx_setup`,
`process_uploaded_file` (lines 81-184) -/

/-- The Streamlit session state fields initialized at lines 28-33: the chat
history, the cached analysis results, and the resume text stored by
`input_docx_setup` at line 114. -/
structure SessionState where
  chat_history : List String
  analysis_results : List (String × Nat)
  resume_text : List Char
deriving DecidableEq

/-- An uploaded file as the handlers see it: its declared filename and its raw
byte content (`uploaded_file.seek(0)` followed by a full read means the
handlers always consume the whole stream from its start). -/
structure UploadedFile where
  name : String
  content : List Nat
deriving DecidableEq

/-- A parsed DOCX document as `python-docx` exposes it at line 111: the
sequence of its paragraph texts. -/
structure DocxDocument where
  paragraphs : List (List Char)
deriving DecidableEq

/-- An abstract first-page bitmap decoded by the external `pdf2image`. -/
abbrev PdfPage := List Nat

/-- The two external decoders the handlers call: `pdf2image.convert_from_bytes`
(line 88) and `docx.Document` (line 110). Both are outside the repository, so
they are parameters of the model; a raised exception is an `Except.error`
carrying its message. -/
structure Externals where
  convert_from_bytes : List Nat → Except String (List PdfPage)
  readDocx : List Nat → Except String DocxDocument

/-- The payload image, kept symbolically: the JPEG quality plus either the
decoded PDF first page (line 93) or the rendered text canvas (lines 143-160).
Base64 and JPEG encoding are deterministic external encoders, so two equal
symbolic payloads stand for two equal encoded payloads. -/
inductive ImageData where
  | pdfJpeg (quality : Nat) (page : PdfPage)
  | textJpeg (quality : Nat) (page : RenderedPage)
deriving DecidableEq

/-- One entry of the `file_parts` list handed to the model gateway
(lines 96-99 and 163-166). -/
structure FilePart where
  mime_type : String
  data : ImageData
deriving DecidableEq

/-- Lines 81-102: decode the PDF bytes, keep the first page (`images[0]`
raises `IndexError: list index out of range` on an empty page list), and wrap
any failure into `ValueError("Error processing PDF: ...")`. -/
def input_pdf_setup (ext : Externals) (uploaded_file : UploadedFile) :
    Except String (List FilePart) :=
  match ext.convert_from_bytes uploaded_file.content with
  | .error e => .error ("Error processing PDF: " ++ e)
  | .ok [] => .error "Error processing PDF: list index out of range"
  | .ok (first_page :: _) =>
    .ok [{ mime_type := "image/jpeg", data := .pdfJpeg 85 first_page }]

/-- Python `"\n".join(...)`. -/
def joinNl : List (List Char) → List Char
  | [] => []
  | [p] => p
  | p :: ps => p ++ '\n' :: joinNl ps

/-- Line 111: paragraph texts whose `strip()` is nonempty, joined with
newlines. -/
def docxText (document : DocxDocument) : List Char :=
  joinNl (document.paragraphs.filter fun p => !(pyStrip p).isEmpty)

/-- Lines 104-169: parse the DOCX, extract its text, store the text in the
session state (line 114), wrap and render the text onto the computed canvas,
and return the JPEG payload; a parse failure is wrapped into
`ValueError("Error processing DOCX: ...")` before the session write. -/
def input_docx_setup (ext : Externals) (session : SessionState)
    (uploaded_file : UploadedFile) :
    SessionState × Except String (List FilePart) :=
  match ext.readDocx uploaded_file.content with
  | .error e => (session, .error ("Error processing DOCX: " ++ e))
  | .ok document =>
    let text := docxText document
    let lines := docxWrapLines text
    ({ session with resume_text := text },
      .ok [{ mime_type := "image/jpeg",
             data := .textJpeg 90
               { width := img_width, height := imgHeight lines,
                 background := (255, 255, 255), texts := drawnTexts lines } }])

/-- Python `str.endswith`: a case-sensitive suffix test. -/
def pyEndsWith (s ending : String) : Bool := ending.data.isSuffixOf s.data

/-- Lines 171-184: dispatch on the filename suffix; the surrounding
`try/except` shows the error in the UI (`st.error`) and re-raises the very
same exception with a bare `raise`, so the returned value is unchanged. -/
def process_uploaded_file (ext : Externals) (session : SessionState)
    (uploaded_file : UploadedFile) :
    SessionState × Except String (List FilePart) :=
  if pyEndsWith uploaded_file.name ".pdf" then
    (session, input_pdf_setup ext uploaded_file)
  else if pyEndsWith uploaded_file.name ".docx" then
    input_docx_setup ext session uploaded_file
  else
    (session, .error "Unsupported file format. Please upload PDF or DOCX.")

/-! ### Lemmas about the dispatch -/

theorem docx_not_pdf (name : String) (h : pyEndsWith name ".docx" = true) :
    pyEndsWith name ".pdf" = false := by
  rw [pyEndsWith] at h ⊢
  by_contra hp
  have hp' : (".pdf".data).isSuffixOf name.data = true := by
    revert hp
    cases (".pdf".data).isSuffixOf name.data <;> simp
  have h1 : ".docx".data <:+ name.data := List.isSuffixOf_iff_suffix.mp h
  have h2 : ".pdf".data <:+ name.data := List.isSuffixOf_iff_suffix.mp hp'
  have h3 : ".pdf".data <:+ ".docx".data :=
    List.suffix_of_suffix_length_le h2 h1 (by decide)
  have h4 : (".pdf".data).isSuffixOf ".docx".data = true :=
    List.isSuffixOf_iff_suffix.mpr h3
  exact absurd h4 (by decide)

theorem input_docx_setup_snd_congr (ext : Externals) (f : UploadedFile)
    (s1 s2 : SessionState) :
    (input_docx_setup ext s1 f).2 = (input_docx_setup ext s2 f).2 := by
  cases h : ext.readDocx f.content <;> simp [input_docx_setup, h]

/-- Claim C4: dispatch is by filename suffix: a name ending in ".pdf" takes
the PDF path, a name ending in ".docx" takes the DOCX path (the two suffixes
are mutually exclusive), and any other name fails with the unsupported-format
error, producing no image payload. -/
theorem C4_extension_dispatch :
    ∀ (ext : Externals) (session : SessionState) (f : UploadedFile),
      (pyEndsWith f.name ".pdf" = true →
        process_uploaded_file ext session f = (session, input_pdf_setup ext f)) ∧
      (pyEndsWith f.name ".docx" = true →
        process_uploaded_file ext session f = input_docx_setup ext session f) ∧
      (pyEndsWith f.name ".pdf" = false → pyEndsWith f.name ".docx" = false →
        process_uploaded_file ext session f =
          (session, .error "Unsupported file format. Please upload PDF or DOCX.")) := by
  intro ext session f
  refine ⟨?_, ?_, ?_⟩
  · intro h
    rw [process_uploaded_file, if_pos h]
  · intro h
    rw [process_uploaded_file, if_neg (by simp [docx_not_pdf f.name h]), if_pos h]
  · intro h1 h2
    rw [process_uploaded_file, if_neg (by simp [h1]), if_neg (by simp [h2])]

/-- Claim C5: the canvas height is `max(400, line_count * 20 + 40)`; on text of
length 0 the handler still produces a payload whose canvas has exactly the
minimum height 400 (hence at least the minimum) and carries no drawn text. -/
theorem C5_canvas_height (ext : Externals) (session : SessionState)
    (f : UploadedFile) (document : DocxDocument)
    (h : ext.readDocx f.content = .ok document) :
    ((input_docx_setup ext session f).2 = .ok
      [⟨"image/jpeg", ImageData.textJpeg 90
        ⟨img_width,
         max 400 ((docxWrapLines (docxText document)).length * line_height + 40),
         (255, 255, 255),
         drawnTexts (docxWrapLines (docxText document))⟩⟩]) ∧
    (docxText document = [] →
      (input_docx_setup ext session f).2 = .ok
        [⟨"image/jpeg", ImageData.textJpeg 90
          ⟨img_width, 400, (255, 255, 255), []⟩⟩]) := by
  constructor
  · simp [input_docx_setup, h, imgHeight]
  · intro htext
    rw [input_docx_setup, h]
    simp only [htext]
    rfl

/-- Fixtures: a session state as initialized at lines 28-33, a DOCX upload,
and external decoders giving fixed answers. -/
def session0 : SessionState := { chat_history := [], analysis_results := [], resume_text := [] }

def sessionA : SessionState :=
  { chat_history := ["inquiry"], analysis_results := [("run", 1)], resume_text := "prior".data }

def fileDocx : UploadedFile := { name := "resume.docx", content := [80, 75] }

def extEmptyDocx : Externals :=
  { convert_from_bytes := fun _ => .error "poppler not found",
    readDocx := fun _ => .ok { paragraphs := [] } }

def extHiDocx : Externals :=
  { convert_from_bytes := fun _ => .error "poppler not found",
    readDocx := fun _ => .ok { paragraphs := ["hi".data] } }

/-- Witness for C5 at a DOCX whose paragraph list is empty, so the extracted
text has length 0. -/
theorem C5_canvas_height_witness :
    ((input_docx_setup extEmptyDocx session0 fileDocx).2 = .ok
      [⟨"image/jpeg", ImageData.textJpeg 90
        ⟨img_width,
         max 400 ((docxWrapLines (docxText ⟨[]⟩)).length * line_height + 40),
         (255, 255, 255),
         drawnTexts (docxWrapLines (docxText ⟨[]⟩))⟩⟩]) ∧
    (docxText (⟨[]⟩ : DocxDocument) = [] →
      (input_docx_setup extEmptyDocx session0 fileDocx).2 = .ok
        [⟨"image/jpeg", ImageData.textJpeg 90
          ⟨img_width, 400, (255, 255, 255), []⟩⟩]) :=
  C5_canvas_height extEmptyDocx session0 fileDocx ⟨[]⟩ rfl

/-- Claim C6 counterexample: a successful DOCX normalization modifies state
outside the call: the session's `resume_text` is overwritten with the
extracted text (line 114), so the component is not free of side effects on
session state. -/
theorem C6_counterexample_session_write :
    (input_docx_setup extHiDocx session0 fileDocx).1 ≠ session0 := by
  decide

/-- Claim C6 as amended: the handlers are pure functions of their declared
inputs except for exactly one effect: a successful DOCX parse overwrites the
session's `resume_text` with the extracted text, leaving the chat history and
analysis results untouched; the PDF path, the unsupported path and a failed
DOCX parse leave the session unchanged, and the produced payload never depends
on the incoming session state. -/
theorem C6_amended_only_resume_text_written :
    ∀ (ext : Externals) (session : SessionState) (f : UploadedFile)
      (document : DocxDocument) (e : String),
      (pyEndsWith f.name ".pdf" = true →
        (process_uploaded_file ext session f).1 = session) ∧
      (pyEndsWith f.name ".pdf" = false → pyEndsWith f.name ".docx" = false →
        (process_uploaded_file ext session f).1 = session) ∧
      (ext.readDocx f.content = .ok document →
        (input_docx_setup ext session f).1 =
          { session with resume_text := docxText document }) ∧
      (ext.readDocx f.content = .error e →
        (input_docx_setup ext session f).1 = session) ∧
      (∀ s1 s2 : SessionState,
        (input_docx_setup ext s1 f).2 = (input_docx_setup ext s2 f).2) := by
  intro ext session f document e
  refine ⟨?_, ?_, ?_, ?_, fun s1 s2 => input_docx_setup_snd_congr ext f s1 s2⟩
  · intro h
    rw [process_uploaded_file, if_pos h]
  · intro h1 h2
    rw [process_uploaded_file, if_neg (by simp [h1]), if_neg (by simp [h2])]
  · intro h
    simp [input_docx_setup, h]
  · intro h
    simp [input_docx_setup, h]

/-- Claim C7: each handler raises its `ValueError` synchronously at the point
of failure (wrapping the external decoder's message exactly once with its
component prefix), and `process_uploaded_file` re-raises that very error value
unchanged; there are no retries in the model (each decoder is consulted once,
in a single pass) and an error excludes any payload. -/
theorem C7_errors_propagate_unchanged :
    ∀ (ext : Externals) (session : SessionState) (f : UploadedFile) (e m : String),
      (pyEndsWith f.name ".pdf" = true → input_pdf_setup ext f = .error e →
        process_uploaded_file ext session f = (session, .error e)) ∧
      (pyEndsWith f.name ".docx" = true → (input_docx_setup ext session f).2 = .error e →
        process_uploaded_file ext session f = (session, .error e)) ∧
      (ext.convert_from_bytes f.content = .error m →
        input_pdf_setup ext f = .error ("Error processing PDF: " ++ m)) ∧
      (ext.readDocx f.content = .error m →
        input_docx_setup ext session f = (session, .error ("Error processing DOCX: " ++ m))) ∧
      (∀ parts, (process_uploaded_file ext session f).2 = .error e →
        (process_uploaded_file ext session f).2 ≠ .ok parts) := by
  intro ext session f e m
  refine ⟨?_, ?_, ?_, ?_, ?_⟩
  · intro h herr
    rw [process_uploaded_file, if_pos h, herr]
  · intro h herr
    rw [process_uploaded_file, if_neg (by simp [docx_not_pdf f.name h]), if_pos h]
    cases hd : ext.readDocx f.content with
    | error e0 => simp [input_docx_setup, hd] at herr ⊢; exact herr
    | ok document => simp [input_docx_setup, hd] at herr
  · intro h
    rw [input_pdf_setup, h]
  · intro h
    rw [input_docx_setup, h]
  · intro parts herr hok
    rw [herr] at hok
    exact Except.noConfusion hok

/-- Claim C8: normalization is deterministic with no random elements: on
byte-identical input with the same filename the produced payload is
identical, whatever the incoming session state is. -/
theorem C8_deterministic_normalization :
    ∀ (ext : Externals) (s1 s2 : SessionState) (f1 f2 : UploadedFile),
      f1.name = f2.name → f1.content = f2.content →
      (process_uploaded_file ext s1 f1).2 = (process_uploaded_file ext s2 f2).2 := by
  intro ext s1 s2 f1 f2 hn hc
  obtain ⟨n1, c1⟩ := f1
  obtain ⟨n2, c2⟩ := f2
  simp only at hn hc
  subst hn
  subst hc
  rw [process_uploaded_file, process_uploaded_file]
  by_cases h1 : pyEndsWith n1 ".pdf" = true
  · rw [if_pos h1, if_pos h1]
  · rw [if_neg h1, if_neg h1]
    by_cases h2 : pyEndsWith n1 ".docx" = true
    · rw [if_pos h2, if_pos h2]
      exact input_docx_setup_snd_congr ext ⟨n1, c1⟩ s1 s2
    · rw [if_neg h2, if_neg h2]

/-- Witness for C8: the same DOCX upload processed under two different session
states yields the same payload. -/
theorem C8_deterministic_witness :
    (process_uploaded_file extHiDocx session0 fileDocx).2 =
      (process_uploaded_file extHiDocx sessionA fileDocx).2 :=
  C8_deterministic_normalization extHiDocx session0 sessionA fileDocx fileDocx rfl rfl

theorem ending_eq_of_append {t v w : List Char} (h : w <:+ t ++ v)
    (hl : w.length = v.length) : w = v :=
  (List.suffix_of_suffix_length_le h (List.suffix_append t v) (le_of_eq hl)).eq_of_length hl

/-- Claim C9: the suffix dispatch is case-sensitive: a filename ending in a
capitalized or mixed-case variant of ".pdf" or ".docx" (equal to the
lowercase extension after `Char.toLower` but not literally equal to it) is
rejected with the unsupported-format error. -/
theorem C9_case_sensitive_dispatch :
    ∀ (ext : Externals) (session : SessionState) (f : UploadedFile),
      ((∃ t v : List Char, f.name.data = t ++ v ∧
          v.map Char.toLower = ".pdf".data ∧ v ≠ ".pdf".data) ∨
       (∃ t v : List Char, f.name.data = t ++ v ∧
          v.map Char.toLower = ".docx".data ∧ v ≠ ".docx".data)) →
      process_uploaded_file ext session f =
        (session, .error "Unsupported file format. Please upload PDF or DOCX.") := by
  intro ext session f hvar
  have hnotpdf : pyEndsWith f.name ".pdf" = false := by
    rw [pyEndsWith]
    by_contra hb
    have hb' : (".pdf".data).isSuffixOf f.name.data = true := by
      revert hb
      cases (".pdf".data).isSuffixOf f.name.data <;> simp
    have hsuf : ".pdf".data <:+ f.name.data := List.isSuffixOf_iff_suffix.mp hb'
    rcases hvar with ⟨t, v, hname, hlow, hne⟩ | ⟨t, v, hname, hlow, hne⟩
    · have hvlen : v.length = (".pdf".data).length := by
        rw [← hlow, List.length_map]
      have : ".pdf".data = v :=
        ending_eq_of_append (hname ▸ hsuf) (by simp [hvlen])
      exact hne this.symm
    · have hvlen : v.length = (".docx".data).length := by
        rw [← hlow, List.length_map]
      have hvs : v <:+ t ++ v := List.suffix_append t v
      have hsv : ".pdf".data <:+ v :=
        List.suffix_of_suffix_length_le (hname ▸ hsuf) hvs (by simp [hvlen])
      have hmap : (".pdf".data).map Char.toLower <:+ v.map Char.toLower := hsv.map _
      rw [hlow] at hmap
      have : ((".pdf".data).map Char.toLower).isSuffixOf ".docx".data = true :=
        List.isSuffixOf_iff_suffix.mpr hmap
      exact absurd this (by decide)
  have hnotdocx : pyEndsWith f.name ".docx" = false := by
    rw [pyEndsWith]
    by_contra hb
    have hb' : (".docx".data).isSuffixOf f.name.data = true := by
      revert hb
      cases (".docx".data).isSuffixOf f.name.data <;> simp
    have hsuf : ".docx".data <:+ f.name.data := List.isSuffixOf_iff_suffix.mp hb'
    rcases hvar with ⟨t, v, hname, hlow, hne⟩ | ⟨t, v, hname, hlow, hne⟩
    · have hvlen : v.length = (".pdf".data).length := by
        rw [← hlow, List.length_map]
      have hvs : v <:+ t ++ v := List.suffix_append t v
      have hsv : v <:+ ".docx".data := by
        refine List.suffix_of_suffix_length_le hvs (hname ▸ hsuf) ?_
        simp [hvlen]
      have hmap : v.map Char.toLower <:+ (".docx".data).map Char.toLower := hsv.map _
      rw [hlow] at hmap
      have : (".pdf".data).isSuffixOf ((".docx".data).map Char.toLower) = true :=
        List.isSuffixOf_iff_suffix.mpr hmap
      exact absurd this (by decide)
    · have hvlen : v.length = (".docx".data).length := by
        rw [← hlow, List.length_map]
      have : ".docx".data = v :=
        ending_eq_of_append (hname ▸ hsuf) (by simp [hvlen])
      exact hne this.symm
  rw [process_uploaded_file, if_neg (by simp [hnotpdf]), if_neg (by simp [hnotdocx])]

def fileUpper : UploadedFile := { name := "RESUME.PDF", content := [37, 80] }

/-- Witness for C9 at the filename "RESUME.PDF". -/
theorem C9_case_sensitive_witness :
    process_uploaded_file extHiDocx session0 fileUpper =
      (session0, .error "Unsupported file format. Please upload PDF or DOCX.") :=
  C9_case_sensitive_dispatch extHiDocx session0 fileUpper
    (Or.inl ⟨"RESUME".data, ".PDF".data, by decide, by decide, by decide⟩)
